import Mathlib

/-!
# Verification of `vits/utils.py`

A shallow embedding of the utility routines of `vits/utils.py` together with
proofs of the behavioural properties stated in the specification.

* `f0_to_coarse` (pitch quantization): floating-point arithmetic is modelled by
  exact real arithmetic; the two library rounding primitives are modelled
  exactly (`Tensor.long` truncates toward zero after adding `0.5`, `np.rint`
  rounds half to even).  The in-place masked assignments on the freshly
  allocated `f0_mel` array are modelled by explicit state passing over the pair
  of arrays `(f0, f0_mel)`.
* `load_checkpoint` / `save_checkpoint`: state dicts are association lists from
  parameter names to values of an arbitrary type; the `torch.save`/`torch.load`
  file round trip is modelled as the identity on the saved dictionary.
* `latest_checkpoint_path`: the directory listing is passed explicitly; glob
  matching implements `*`/`?` wildcards (character classes do not occur in the
  patterns of this repository); `list.sort(key=...)` is modelled by a stable
  insertion sort; `int("".join(filter(str.isdigit, f)))` is the digit-string
  key, `none` when the path has no digit at all (Python raises `ValueError`).
-/

namespace Vits

/-! ### Module-level constants of `vits/utils.py` -/

def f0_bin : ℕ := 256

def f0_max : ℝ := 1100.0

def f0_min : ℝ := 50.0

noncomputable def f0_mel_min : ℝ := 1127 * Real.log (1 + f0_min / 700)

noncomputable def f0_mel_max : ℝ := 1127 * Real.log (1 + f0_max / 700)

/-! ### `f0_to_coarse`, scalar core

The element-wise computation applied to each entry of the input array:
mel conversion, masked rescale, the two masked clamps, and the rounding
of the selected branch. -/

/-- Mel conversion `1127 * log(1 + f0 / 700)` (first line of `f0_to_coarse`). -/
noncomputable def f0_mel_of (f0 : ℝ) : ℝ := 1127 * Real.log (1 + f0 / 700)

/-- Right-hand side of the masked assignment
`f0_mel[f0_mel > 0] = (f0_mel[f0_mel > 0] - f0_mel_min) * (f0_bin - 2) / (f0_mel_max - f0_mel_min) + 1`. -/
noncomputable def melRescale (m : ℝ) : ℝ :=
  (m - f0_mel_min) * ((f0_bin : ℝ) - 2) / (f0_mel_max - f0_mel_min) + 1

/-- Element-wise effect of the masked rescale (mask `f0_mel > 0`). -/
noncomputable def melStep1 (m : ℝ) : ℝ := if 0 < m then melRescale m else m

/-- Element-wise effect of `f0_mel[f0_mel <= 1] = 1`. -/
noncomputable def melStep2 (m : ℝ) : ℝ := if m ≤ 1 then 1 else m

/-- Element-wise effect of `f0_mel[f0_mel > f0_bin - 1] = f0_bin - 1`. -/
noncomputable def melStep3 (m : ℝ) : ℝ :=
  if ((f0_bin : ℝ) - 1) < m then (f0_bin : ℝ) - 1 else m

/-- The clamped mel value of one input entry, just before rounding. -/
noncomputable def f0_mel_clamped (f0 : ℝ) : ℝ :=
  melStep3 (melStep2 (melStep1 (f0_mel_of f0)))

/-- Torch `Tensor.long()`: conversion to int64 truncates toward zero. -/
noncomputable def pyLong (x : ℝ) : ℤ := if 0 ≤ x then ⌊x⌋ else ⌈x⌉

/-- Numpy `np.rint`: round to nearest integer, halves to the even integer. -/
noncomputable def rint (x : ℝ) : ℤ :=
  if Int.fract x = 1 / 2 then (if 2 ∣ ⌊x⌋ then ⌊x⌋ else ⌊x⌋ + 1) else round x

/-- The final rounding line
`(f0_mel + 0.5).long() if is_torch else np.rint(f0_mel).astype(np.int)`. -/
noncomputable def roundBranch (is_torch : Bool) (m : ℝ) : ℤ :=
  if is_torch then pyLong (m + 0.5) else rint m

/-- The whole element-wise computation of `f0_to_coarse` on one value. -/
noncomputable def f0_to_coarse_scalar (is_torch : Bool) (f0 : ℝ) : ℤ :=
  roundBranch is_torch (f0_mel_clamped f0)

/-! ### `f0_to_coarse`, array version with explicit state

`f0` is the input array (only ever read); `f0_mel` is the freshly allocated
mel array that the three masked assignments update in place. -/

structure QState where
  f0 : List ℝ
  f0_mel : List ℝ

/-- In-place masked assignment `a[p(a)] = f(a[p(a)])` on one array. -/
noncomputable def maskedAssign (p : ℝ → Prop) [DecidablePred p] (f : ℝ → ℝ)
    (l : List ℝ) : List ℝ :=
  l.map fun x => if p x then f x else x

/-- The body of `f0_to_coarse` up to (and excluding) the assert: returns the
rounded array together with the final state of the two arrays. -/
noncomputable def f0_to_coarse_run (is_torch : Bool) (f0 : List ℝ) :
    List ℤ × QState :=
  let s0 : QState := ⟨f0, f0.map f0_mel_of⟩
  let s1 : QState := ⟨s0.f0, maskedAssign (fun m => 0 < m) melRescale s0.f0_mel⟩
  let s2 : QState := ⟨s1.f0, maskedAssign (fun m => m ≤ 1) (fun _ => 1) s1.f0_mel⟩
  let s3 : QState := ⟨s2.f0,
    maskedAssign (fun m => ((f0_bin : ℝ) - 1) < m) (fun _ => (f0_bin : ℝ) - 1) s2.f0_mel⟩
  (s3.f0_mel.map (roundBranch is_torch), s3)

/-- Function `f0_to_coarse` with the final
`assert f0_coarse.max() <= 255 and f0_coarse.min() >= 1`; `max`/`min` of an
empty array is itself an error in both backends. -/
noncomputable def f0_to_coarse (is_torch : Bool) (f0 : List ℝ) :
    Except String (List ℤ) :=
  let f0_coarse := (f0_to_coarse_run is_torch f0).1
  match f0_coarse.max?, f0_coarse.min? with
  | some mx, some mn =>
      if mx ≤ 255 ∧ 1 ≤ mn then .ok f0_coarse else .error "AssertionError"
  | _, _ => .error "max of an empty array"

/-! ### Basic facts about the constants -/

lemma f0_min_eq : f0_min = 50 := by norm_num [f0_min]

lemma f0_max_eq : f0_max = 1100 := by norm_num [f0_max]

lemma f0_mel_min_pos : 0 < f0_mel_min := by
  have h : (1 : ℝ) < 1 + f0_min / 700 := by rw [f0_min_eq]; norm_num
  have := Real.log_pos h
  unfold f0_mel_min
  nlinarith

lemma f0_mel_min_lt_max : f0_mel_min < f0_mel_max := by
  have h : Real.log (1 + f0_min / 700) < Real.log (1 + f0_max / 700) := by
    apply Real.log_lt_log
    · rw [f0_min_eq]; norm_num
    · rw [f0_min_eq, f0_max_eq]; norm_num
  unfold f0_mel_min f0_mel_max
  nlinarith

lemma melDelta_pos : 0 < f0_mel_max - f0_mel_min :=
  sub_pos.mpr f0_mel_min_lt_max

lemma melDelta_ne : f0_mel_max - f0_mel_min ≠ 0 := ne_of_gt melDelta_pos

/-! ### The run computes the scalar core element-wise -/

lemma f0_to_coarse_run_fst (is_torch : Bool) (f0 : List ℝ) :
    (f0_to_coarse_run is_torch f0).1 = f0.map (f0_to_coarse_scalar is_torch) := by
  simp only [f0_to_coarse_run, maskedAssign, List.map_map]
  rfl

lemma f0_to_coarse_run_f0 (is_torch : Bool) (f0 : List ℝ) :
    (f0_to_coarse_run is_torch f0).2.f0 = f0 := rfl

/-! ### Range of the clamped mel value -/

lemma f0_mel_clamped_mem (x : ℝ) :
    1 ≤ f0_mel_clamped x ∧ f0_mel_clamped x ≤ 255 := by
  unfold f0_mel_clamped melStep3 melStep2
  have hbin : ((f0_bin : ℝ) - 1) = 255 := by norm_num [f0_bin]
  rw [hbin]
  set y := melStep1 (f0_mel_of x) with hy
  by_cases h1 : y ≤ 1
  · simp only [if_pos h1]
    norm_num
  · simp only [if_neg h1]
    push_neg at h1
    by_cases h2 : (255 : ℝ) < y
    · simp only [if_pos h2]; norm_num
    · simp only [if_neg h2]
      push_neg at h2
      exact ⟨le_of_lt h1, h2⟩

/-! ### Bounds for the two rounding primitives -/

lemma pyLong_eq_floor {x : ℝ} (h : 0 ≤ x) : pyLong x = ⌊x⌋ := if_pos h

lemma round_eq_floor_add_half (x : ℝ) : round x = ⌊x + 1 / 2⌋ := round_eq x

lemma floor_le_rint (x : ℝ) : ⌊x⌋ ≤ rint x := by
  unfold rint
  by_cases h : Int.fract x = 1 / 2
  · simp only [if_pos h]
    by_cases h2 : 2 ∣ ⌊x⌋
    · simp [h2]
    · simp [h2]
  · simp only [if_neg h, round_eq]
    exact Int.floor_le_floor (by linarith)

lemma rint_le_floor_add_one (x : ℝ) : rint x ≤ ⌊x⌋ + 1 := by
  unfold rint
  by_cases h : Int.fract x = 1 / 2
  · simp only [if_pos h]
    by_cases h2 : 2 ∣ ⌊x⌋
    · simp only [if_pos h2]; omega
    · simp only [if_neg h2]; omega
  · simp only [if_neg h, round_eq]
    have : x + 1 / 2 ≤ x + 1 := by linarith
    calc ⌊x + 1 / 2⌋ ≤ ⌊x + 1⌋ := Int.floor_le_floor this
    _ = ⌊x⌋ + 1 := by
        have := Int.floor_add_int x 1
        push_cast at this
        exact_mod_cast this

lemma roundBranch_mem (is_torch : Bool) {m : ℝ} (h1 : 1 ≤ m) (h2 : m ≤ 255) :
    1 ≤ roundBranch is_torch m ∧ roundBranch is_torch m ≤ 255 := by
  unfold roundBranch
  cases is_torch with
  | true =>
      rw [if_pos rfl]
      rw [pyLong_eq_floor (by linarith : (0 : ℝ) ≤ m + 0.5)]
      constructor
      · exact Int.le_floor.mpr (by push_cast; linarith)
      · have : ⌊m + 0.5⌋ < 256 := Int.floor_lt.mpr (by push_cast; linarith)
        omega
  | false =>
      rw [if_neg (by simp)]
      constructor
      · calc (1 : ℤ) ≤ ⌊m⌋ := Int.le_floor.mpr (by exact_mod_cast h1)
        _ ≤ rint m := floor_le_rint m
      · rcases lt_or_eq_of_le (Int.floor_le_floor h2 : ⌊m⌋ ≤ ⌊(255 : ℝ)⌋) with hlt | heq
        · have h255 : ⌊(255 : ℝ)⌋ = 255 := by norm_num
          have := rint_le_floor_add_one m
          omega
        · -- `⌊m⌋ = 255` together with `m ≤ 255` forces `m = 255`
          have h255 : ⌊(255 : ℝ)⌋ = 255 := by norm_num
          have hm : m = 255 := by
            have hfl : (255 : ℝ) ≤ m := by
              have hf := Int.floor_le m
              rw [heq, h255] at hf
              exact_mod_cast hf
            linarith
          subst hm
          unfold rint
          have hfr : Int.fract (255 : ℝ) = 0 := by
            rw [show (255 : ℝ) = ((255 : ℤ) : ℝ) by norm_num, Int.fract_intCast]
          rw [if_neg (by rw [hfr]; norm_num)]
          have : round (255 : ℝ) = ((255 : ℤ) : ℤ) := by
            rw [show (255 : ℝ) = ((255 : ℤ) : ℝ) by norm_num, round_intCast]
          omega

lemma f0_to_coarse_scalar_mem (is_torch : Bool) (x : ℝ) :
    1 ≤ f0_to_coarse_scalar is_torch x ∧ f0_to_coarse_scalar is_torch x ≤ 255 := by
  obtain ⟨h1, h2⟩ := f0_mel_clamped_mem x
  exact roundBranch_mem is_torch h1 h2

/-! ### Evaluating the clamp chain -/

lemma f0_bin_cast_sub_one : ((f0_bin : ℝ) - 1) = 255 := by norm_num [f0_bin]

lemma f0_bin_cast_sub_two : ((f0_bin : ℝ) - 2) = 254 := by norm_num [f0_bin]

lemma clamp_eval_low {y : ℝ} (h : y ≤ 1) : melStep3 (melStep2 y) = 1 := by
  unfold melStep3 melStep2
  rw [if_pos h, f0_bin_cast_sub_one, if_neg (by norm_num)]

lemma clamp_eval_mid {y : ℝ} (h1 : 1 < y) (h2 : y ≤ 255) :
    melStep3 (melStep2 y) = y := by
  unfold melStep3 melStep2
  rw [if_neg (not_le.mpr h1), f0_bin_cast_sub_one, if_neg (not_lt.mpr h2)]

lemma clamp_eval_high {y : ℝ} (h : 255 < y) : melStep3 (melStep2 y) = 255 := by
  unfold melStep3 melStep2
  rw [if_neg (not_le.mpr (by linarith : (1 : ℝ) < y)), f0_bin_cast_sub_one,
    if_pos h]

/-! ### Evaluating the rounding primitives at integers -/

lemma rint_intCast (n : ℤ) : rint ((n : ℝ)) = n := by
  unfold rint
  rw [Int.fract_intCast, if_neg (by norm_num), round_intCast]

lemma roundBranch_one (is_torch : Bool) : roundBranch is_torch 1 = 1 := by
  unfold roundBranch
  cases is_torch with
  | true =>
      rw [if_pos rfl]
      unfold pyLong
      rw [if_pos (by norm_num)]
      rw [show (1 : ℝ) + 0.5 = 3 / 2 by norm_num]
      rw [Int.floor_eq_iff]
      norm_num
  | false =>
      rw [if_neg (by simp)]
      rw [show (1 : ℝ) = ((1 : ℤ) : ℝ) by norm_num, rint_intCast]

lemma roundBranch_255 (is_torch : Bool) : roundBranch is_torch 255 = 255 := by
  unfold roundBranch
  cases is_torch with
  | true =>
      rw [if_pos rfl]
      unfold pyLong
      rw [if_pos (by norm_num)]
      rw [show (255 : ℝ) + 0.5 = 511 / 2 by norm_num]
      rw [Int.floor_eq_iff]
      norm_num
  | false =>
      rw [if_neg (by simp)]
      rw [show (255 : ℝ) = ((255 : ℤ) : ℝ) by norm_num, rint_intCast]

/-! ### Mel values at the distinguished inputs -/

lemma f0_mel_of_zero : f0_mel_of 0 = 0 := by
  unfold f0_mel_of
  norm_num

lemma f0_mel_of_fifty : f0_mel_of 50 = f0_mel_min := by
  unfold f0_mel_of f0_mel_min
  rw [f0_min_eq]

lemma f0_mel_of_eleven_hundred : f0_mel_of 1100 = f0_mel_max := by
  unfold f0_mel_of f0_mel_max
  rw [f0_max_eq]

lemma f0_mel_of_pos {x : ℝ} (hx : 0 < x) : 0 < f0_mel_of x := by
  unfold f0_mel_of
  have h : (1 : ℝ) < 1 + x / 700 := by nlinarith
  nlinarith [Real.log_pos h]

lemma f0_mel_of_lt_min {x : ℝ} (h0 : 0 < x) (hx : x < 50) :
    f0_mel_of x < f0_mel_min := by
  unfold f0_mel_of f0_mel_min
  rw [f0_min_eq]
  have h : Real.log (1 + x / 700) < Real.log (1 + 50 / 700) := by
    apply Real.log_lt_log (by nlinarith)
    nlinarith
  nlinarith

lemma f0_mel_of_gt_max {x : ℝ} (hx : 1100 < x) :
    f0_mel_max < f0_mel_of x := by
  unfold f0_mel_of f0_mel_max
  rw [f0_max_eq]
  have h : Real.log (1 + 1100 / 700) < Real.log (1 + x / 700) := by
    apply Real.log_lt_log (by norm_num)
    nlinarith
  nlinarith

/-! ### Evaluating the rescale -/

lemma melRescale_min : melRescale f0_mel_min = 1 := by
  unfold melRescale
  simp

lemma melRescale_max : melRescale f0_mel_max = 255 := by
  unfold melRescale
  rw [f0_bin_cast_sub_two, mul_comm, mul_div_assoc,
    div_self melDelta_ne, mul_one]
  norm_num

lemma melRescale_lt_one {m : ℝ} (h : m < f0_mel_min) : melRescale m < 1 := by
  unfold melRescale
  rw [f0_bin_cast_sub_two]
  have hneg : (m - f0_mel_min) * 254 / (f0_mel_max - f0_mel_min) < 0 := by
    apply div_neg_of_neg_of_pos _ melDelta_pos
    nlinarith
  linarith

lemma melRescale_gt_255 {m : ℝ} (h : f0_mel_max < m) : 255 < melRescale m := by
  unfold melRescale
  rw [f0_bin_cast_sub_two]
  have key : (f0_mel_max - f0_mel_min) * (254 / (f0_mel_max - f0_mel_min)) <
      (m - f0_mel_min) * (254 / (f0_mel_max - f0_mel_min)) := by
    apply mul_lt_mul_of_pos_right (by linarith)
    exact div_pos (by norm_num) melDelta_pos
  have hval : (f0_mel_max - f0_mel_min) * (254 / (f0_mel_max - f0_mel_min)) = 254 := by
    field_simp [melDelta_ne]
  rw [hval] at key
  rw [mul_div_assoc]
  linarith

lemma melRescale_mono {m m' : ℝ} (h : m ≤ m') : melRescale m ≤ melRescale m' := by
  unfold melRescale
  rw [f0_bin_cast_sub_two]
  have hk : 0 ≤ 254 / (f0_mel_max - f0_mel_min) :=
    le_of_lt (div_pos (by norm_num) melDelta_pos)
  rw [mul_div_assoc, mul_div_assoc]
  have := mul_le_mul_of_nonneg_right (sub_le_sub_right h f0_mel_min) hk
  linarith

/-! ### The clamped mel value at the distinguished inputs -/

lemma f0_mel_clamped_zero : f0_mel_clamped 0 = 1 := by
  unfold f0_mel_clamped melStep1
  rw [f0_mel_of_zero, if_neg (by norm_num)]
  exact clamp_eval_low (by norm_num)

lemma f0_mel_clamped_fifty : f0_mel_clamped 50 = 1 := by
  unfold f0_mel_clamped melStep1
  rw [f0_mel_of_fifty, if_pos f0_mel_min_pos, melRescale_min]
  exact clamp_eval_low le_rfl

lemma f0_mel_clamped_eleven_hundred : f0_mel_clamped 1100 = 255 := by
  unfold f0_mel_clamped melStep1
  have hpos : 0 < f0_mel_max := lt_trans f0_mel_min_pos f0_mel_min_lt_max
  rw [f0_mel_of_eleven_hundred, if_pos hpos, melRescale_max]
  exact clamp_eval_mid (by norm_num) le_rfl

lemma f0_mel_clamped_below {x : ℝ} (h0 : 0 < x) (hx : x < 50) :
    f0_mel_clamped x = 1 := by
  unfold f0_mel_clamped melStep1
  rw [if_pos (f0_mel_of_pos h0)]
  exact clamp_eval_low (le_of_lt (melRescale_lt_one (f0_mel_of_lt_min h0 hx)))

lemma f0_mel_clamped_above {x : ℝ} (hx : 1100 < x) :
    f0_mel_clamped x = 255 := by
  unfold f0_mel_clamped melStep1
  have hpos : 0 < f0_mel_of x :=
    lt_trans (lt_trans f0_mel_min_pos f0_mel_min_lt_max) (f0_mel_of_gt_max hx)
  rw [if_pos hpos]
  exact clamp_eval_high (melRescale_gt_255 (f0_mel_of_gt_max hx))

/-! ### Scalar results at the distinguished inputs -/

lemma f0_to_coarse_scalar_zero (is_torch : Bool) :
    f0_to_coarse_scalar is_torch 0 = 1 := by
  unfold f0_to_coarse_scalar
  rw [f0_mel_clamped_zero, roundBranch_one]

lemma f0_to_coarse_scalar_fifty (is_torch : Bool) :
    f0_to_coarse_scalar is_torch 50 = 1 := by
  unfold f0_to_coarse_scalar
  rw [f0_mel_clamped_fifty, roundBranch_one]

lemma f0_to_coarse_scalar_eleven_hundred (is_torch : Bool) :
    f0_to_coarse_scalar is_torch 1100 = 255 := by
  unfold f0_to_coarse_scalar
  rw [f0_mel_clamped_eleven_hundred, roundBranch_255]

lemma f0_to_coarse_scalar_below (is_torch : Bool) {x : ℝ} (h0 : 0 < x)
    (hx : x < 50) : f0_to_coarse_scalar is_torch x = 1 := by
  unfold f0_to_coarse_scalar
  rw [f0_mel_clamped_below h0 hx, roundBranch_one]

lemma f0_to_coarse_scalar_above (is_torch : Bool) {x : ℝ} (hx : 1100 < x) :
    f0_to_coarse_scalar is_torch x = 255 := by
  unfold f0_to_coarse_scalar
  rw [f0_mel_clamped_above hx, roundBranch_255]

/-! ### The assert always passes on non-empty input -/

lemma f0_to_coarse_ok (is_torch : Bool) (l : List ℝ) (hne : l ≠ []) :
    f0_to_coarse is_torch l = .ok (l.map (f0_to_coarse_scalar is_torch)) := by
  have hr := f0_to_coarse_run_fst is_torch l
  have hrne : (f0_to_coarse_run is_torch l).1 ≠ [] := by
    rw [hr]
    simpa using hne
  rcases hmx : (f0_to_coarse_run is_torch l).1.max? with _ | mx
  · exact absurd (List.max?_eq_none_iff.mp hmx) hrne
  rcases hmn : (f0_to_coarse_run is_torch l).1.min? with _ | mn
  · exact absurd (List.min?_eq_none_iff.mp hmn) hrne
  have hmx_mem : mx ∈ (f0_to_coarse_run is_torch l).1 :=
    List.max?_mem (fun a b => max_choice a b) hmx
  have hmn_mem : mn ∈ (f0_to_coarse_run is_torch l).1 :=
    List.min?_mem (fun a b => min_choice a b) hmn
  rw [hr] at hmx_mem hmn_mem
  obtain ⟨x, _, hxe⟩ := List.mem_map.mp hmx_mem
  obtain ⟨y, _, hye⟩ := List.mem_map.mp hmn_mem
  have hmx_le : mx ≤ 255 := hxe ▸ (f0_to_coarse_scalar_mem is_torch x).2
  have hmn_ge : 1 ≤ mn := hye ▸ (f0_to_coarse_scalar_mem is_torch y).1
  unfold f0_to_coarse
  simp only [hmx, hmn]
  rw [if_pos ⟨hmx_le, hmn_ge⟩, hr]

lemma f0_to_coarse_nil (is_torch : Bool) :
    f0_to_coarse is_torch [] = .error "max of an empty array" := rfl

lemma f0_to_coarse_out (is_torch : Bool) {l : List ℝ} {out : List ℤ}
    (h : f0_to_coarse is_torch l = .ok out) :
    out = l.map (f0_to_coarse_scalar is_torch) := by
  rcases eq_or_ne l [] with rfl | hne
  · rw [f0_to_coarse_nil] at h
    exact absurd h (by simp)
  · rw [f0_to_coarse_ok is_torch l hne] at h
    injection h with h
    exact h.symm

/-- C1: for every non-empty array of non-negative f0 values, `f0_to_coarse`
(either backend branch) passes its postcondition assert and returns an array
all of whose entries lie in `[1, 255]`. -/
theorem f0_to_coarse_assert_never_fires (is_torch : Bool) (l : List ℝ)
    (hne : l ≠ []) (_hnn : ∀ x ∈ l, 0 ≤ x) :
    ∃ out, f0_to_coarse is_torch l = .ok out ∧ ∀ b ∈ out, 1 ≤ b ∧ b ≤ 255 := by
  refine ⟨l.map (f0_to_coarse_scalar is_torch), f0_to_coarse_ok is_torch l hne, ?_⟩
  intro b hb
  obtain ⟨x, _, hxe⟩ := List.mem_map.mp hb
  exact hxe ▸ f0_to_coarse_scalar_mem is_torch x

/-- Witness for C1 at the concrete input `[0.0]` on the torch branch. -/
theorem f0_to_coarse_assert_never_fires_witness :
    (([(0 : ℝ)] ≠ []) ∧ ∀ x ∈ [(0 : ℝ)], 0 ≤ x) ∧
      ∃ out, f0_to_coarse true [(0 : ℝ)] = .ok out ∧
        ∀ b ∈ out, 1 ≤ b ∧ b ≤ 255 :=
  ⟨⟨by simp, by simp⟩,
    f0_to_coarse_assert_never_fires true [(0 : ℝ)] (by simp) (by simp)⟩

/-- C2: boundary behaviour: silence (0) and `f0_min` (50) map to bin 1,
`f0_max` (1100) maps to bin 255, and every positive input below `f0_min`
(resp. above `f0_max`) saturates to 1 (resp. 255), in all cases returning
`.ok` rather than an error, on both backend branches. -/
theorem f0_to_coarse_boundaries :
    (∀ is_torch : Bool, f0_to_coarse is_torch [(0 : ℝ)] = .ok [1]) ∧
    (∀ is_torch : Bool, f0_to_coarse is_torch [(50 : ℝ)] = .ok [1]) ∧
    (∀ is_torch : Bool, f0_to_coarse is_torch [(1100 : ℝ)] = .ok [255]) ∧
    (∀ (is_torch : Bool) (x : ℝ), 0 < x → x < 50 →
      f0_to_coarse is_torch [x] = .ok [1]) ∧
    (∀ (is_torch : Bool) (x : ℝ), 1100 < x →
      f0_to_coarse is_torch [x] = .ok [255]) := by
  refine ⟨fun t => ?_, fun t => ?_, fun t => ?_,
    fun t x h0 hx => ?_, fun t x hx => ?_⟩ <;>
    rw [f0_to_coarse_ok _ _ (by simp)]
  · rw [List.map_singleton, f0_to_coarse_scalar_zero]
  · rw [List.map_singleton, f0_to_coarse_scalar_fifty]
  · rw [List.map_singleton, f0_to_coarse_scalar_eleven_hundred]
  · rw [List.map_singleton, f0_to_coarse_scalar_below t h0 hx]
  · rw [List.map_singleton, f0_to_coarse_scalar_above t hx]

/-- Witness for C2 at the concrete out-of-range input 25 Hz (torch branch). -/
theorem f0_to_coarse_boundaries_witness :
    ((0 : ℝ) < 25 ∧ (25 : ℝ) < 50) ∧ f0_to_coarse true [(25 : ℝ)] = .ok [1] :=
  ⟨⟨by norm_num, by norm_num⟩,
    f0_to_coarse_boundaries.2.2.2.1 true 25 (by norm_num) (by norm_num)⟩

/-- C4: element-wise independence: the array computation agrees index-wise
with the scalar core, and on a one-element array it returns exactly the
scalar result. -/
theorem f0_to_coarse_elementwise :
    (∀ (is_torch : Bool) (l : List ℝ) (out : List ℤ) (i : ℕ),
      f0_to_coarse is_torch l = .ok out →
      out[i]? = (l[i]?).map (f0_to_coarse_scalar is_torch)) ∧
    (∀ (is_torch : Bool) (x : ℝ),
      (f0_to_coarse_run is_torch [x]).1 = [f0_to_coarse_scalar is_torch x]) := by
  constructor
  · intro t l out i h
    rw [f0_to_coarse_out t h]
    exact List.getElem?_map ..
  · intro t x
    rw [f0_to_coarse_run_fst, List.map_singleton]

/-- Witness for C4 at the concrete input `[100.0]`, index 0, torch branch. -/
theorem f0_to_coarse_elementwise_witness :
    f0_to_coarse true [(100 : ℝ)] =
      .ok ([(100 : ℝ)].map (f0_to_coarse_scalar true)) ∧
    ([(100 : ℝ)].map (f0_to_coarse_scalar true))[0]? =
      ([(100 : ℝ)][0]?).map (f0_to_coarse_scalar true) :=
  ⟨f0_to_coarse_ok true [(100 : ℝ)] (by simp),
    f0_to_coarse_elementwise.1 true [(100 : ℝ)] _ 0
      (f0_to_coarse_ok true [(100 : ℝ)] (by simp))⟩

/-- C8: purity / frame condition: the input array component of the state is
unchanged by the whole run (the masked assignments only write the freshly
allocated `f0_mel`), and the returned array is a pure element-wise function
of the input. -/
theorem f0_to_coarse_no_side_effect :
    ∀ (is_torch : Bool) (l : List ℝ),
      (f0_to_coarse_run is_torch l).2.f0 = l ∧
      (f0_to_coarse_run is_torch l).1 = l.map (f0_to_coarse_scalar is_torch) :=
  fun is_torch l => ⟨f0_to_coarse_run_f0 is_torch l, f0_to_coarse_run_fst is_torch l⟩

/-! ### Monotonicity -/

lemma f0_mel_of_mono {x y : ℝ} (hx : 0 ≤ x) (hxy : x ≤ y) :
    f0_mel_of x ≤ f0_mel_of y := by
  unfold f0_mel_of
  have h : Real.log (1 + x / 700) ≤ Real.log (1 + y / 700) := by
    rw [Real.log_le_log_iff (by linarith) (by linarith)]
    linarith
  linarith

lemma melStep2_mono {a b : ℝ} (h : a ≤ b) : melStep2 a ≤ melStep2 b := by
  unfold melStep2
  by_cases ha : a ≤ 1
  · rw [if_pos ha]
    by_cases hb : b ≤ 1
    · rw [if_pos hb]
    · rw [if_neg hb]; push_neg at hb; linarith
  · rw [if_neg ha, if_neg (by push_neg at ha ⊢; linarith)]
    exact h

lemma melStep3_mono {a b : ℝ} (h : a ≤ b) : melStep3 a ≤ melStep3 b := by
  unfold melStep3
  rw [f0_bin_cast_sub_one]
  by_cases hb : (255 : ℝ) < b
  · rw [if_pos hb]
    by_cases ha : (255 : ℝ) < a
    · rw [if_pos ha]
    · rw [if_neg ha]; push_neg at ha; linarith
  · rw [if_neg hb, if_neg (by push_neg at hb ⊢; linarith)]
    exact h

lemma f0_mel_clamped_mono {x y : ℝ} (hx : 50 ≤ x) (hxy : x ≤ y) :
    f0_mel_clamped x ≤ f0_mel_clamped y := by
  have hmx : f0_mel_min ≤ f0_mel_of x := by
    rw [← f0_mel_of_fifty]
    exact f0_mel_of_mono (by norm_num) hx
  have hmy : f0_mel_min ≤ f0_mel_of y := by
    rw [← f0_mel_of_fifty]
    exact f0_mel_of_mono (by norm_num) (le_trans hx hxy)
  have hmono : f0_mel_of x ≤ f0_mel_of y := f0_mel_of_mono (by linarith) hxy
  unfold f0_mel_clamped melStep1
  rw [if_pos (lt_of_lt_of_le f0_mel_min_pos hmx),
    if_pos (lt_of_lt_of_le f0_mel_min_pos hmy)]
  exact melStep3_mono (melStep2_mono (melRescale_mono hmono))

lemma fract_half_eq {x : ℝ} (h : Int.fract x = 1 / 2) :
    x = (⌊x⌋ : ℝ) + 1 / 2 := by
  have hf := Int.self_sub_floor x
  rw [h] at hf
  linarith

lemma rint_mono {x y : ℝ} (hxy : x ≤ y) : rint x ≤ rint y := by
  have hfl : ⌊x⌋ ≤ ⌊y⌋ := Int.floor_le_floor hxy
  rcases lt_or_eq_of_le hfl with hlt | heq
  · calc rint x ≤ ⌊x⌋ + 1 := rint_le_floor_add_one x
    _ ≤ ⌊y⌋ := by omega
    _ ≤ rint y := floor_le_rint y
  · by_cases hx2 : Int.fract x = 1 / 2 <;> by_cases hy2 : Int.fract y = 1 / 2
    · -- both half-integers on the same floor: equal inputs
      have hx3 := fract_half_eq hx2
      have hy3 := fract_half_eq hy2
      rw [heq] at hx3
      have : x = y := by linarith
      rw [this]
    · -- `x` a half-integer, `y` strictly above it
      have hx3 := fract_half_eq hx2
      have hy3 : (⌊y⌋ : ℝ) + 1 ≤ y + 1 / 2 := by
        rw [← heq]; rw [hx3] at hxy; linarith
      have hy4 : ⌊y⌋ + 1 ≤ rint y := by
        unfold rint
        rw [if_neg hy2, round_eq]
        exact Int.le_floor.mpr (by push_cast; linarith)
      have := rint_le_floor_add_one x
      rw [heq] at this
      omega
    · -- `y` a half-integer, `x` strictly below it
      have hy3 := fract_half_eq hy2
      have hx3 : x + 1 / 2 < (⌊x⌋ : ℝ) + 1 := by
        have hfr : Int.fract x < 1 / 2 := by
          have h1 : Int.fract x ≤ Int.fract y := by
            have hxf := Int.self_sub_floor x
            have hyf := Int.self_sub_floor y
            rw [heq] at hxf
            nlinarith [hxf, hyf]
          rcases lt_or_eq_of_le h1 with h2 | h2
          · rw [hy2] at h2; exact h2
          · exact absurd (h2.trans hy2) hx2
        have hxf := Int.self_sub_floor x
        linarith
      have hx4 : rint x ≤ ⌊x⌋ := by
        unfold rint
        rw [if_neg hx2, round_eq]
        have : ⌊x + 1 / 2⌋ < ⌊x⌋ + 1 := Int.floor_lt.mpr (by push_cast; linarith)
        omega
      have := floor_le_rint y
      rw [← heq] at this
      omega
    · -- neither is a half-integer: both round via `⌊· + 1/2⌋`
      unfold rint
      rw [if_neg hx2, if_neg hy2, round_eq, round_eq]
      exact Int.floor_le_floor (by linarith)

lemma roundBranch_mono (is_torch : Bool) {a b : ℝ} (ha : 0 ≤ a) (hab : a ≤ b) :
    roundBranch is_torch a ≤ roundBranch is_torch b := by
  unfold roundBranch
  cases is_torch with
  | true =>
      rw [if_pos rfl, pyLong_eq_floor (by linarith), pyLong_eq_floor (by linarith)]
      exact Int.floor_le_floor (by linarith)
  | false =>
      rw [if_neg (by simp)]
      exact rint_mono hab

/-- C3: on the nominal voiced range `[50, 1100]` the quantizer is
monotonically non-decreasing, on both backend branches. -/
theorem f0_to_coarse_monotone (is_torch : Bool) (x y : ℝ)
    (hx : 50 ≤ x) (hxy : x ≤ y) (_hy : y ≤ 1100) :
    f0_to_coarse_scalar is_torch x ≤ f0_to_coarse_scalar is_torch y := by
  unfold f0_to_coarse_scalar
  exact roundBranch_mono is_torch
    (le_trans (by norm_num) (f0_mel_clamped_mem x).1)
    (f0_mel_clamped_mono hx hxy)

/-- Witness for C3 at the concrete pair 100 ≤ 200 (numpy branch). -/
theorem f0_to_coarse_monotone_witness :
    ((50 : ℝ) ≤ 100 ∧ (100 : ℝ) ≤ 200 ∧ (200 : ℝ) ≤ 1100) ∧
      f0_to_coarse_scalar false 100 ≤ f0_to_coarse_scalar false 200 :=
  ⟨⟨by norm_num, by norm_num, by norm_num⟩,
    f0_to_coarse_monotone false 100 200 (by norm_num) (by norm_num) (by norm_num)⟩

/-! ### Comparing the two rounding branches -/

lemma roundBranch_torch_eq_round {m : ℝ} (hm : 0 ≤ m) :
    roundBranch true m = round m := by
  unfold roundBranch
  rw [if_pos rfl, pyLong_eq_floor (by linarith),
    show m + 0.5 = m + 1 / 2 by norm_num, ← round_eq]

lemma roundBranch_np_eq_rint (m : ℝ) : roundBranch false m = rint m := by
  unfold roundBranch
  rw [if_neg (by simp)]

lemma rint_of_fract_ne {m : ℝ} (h : Int.fract m ≠ 1 / 2) :
    rint m = round m := by
  unfold rint
  rw [if_neg h]

lemma round_of_fract_half {m : ℝ} (h : Int.fract m = 1 / 2) :
    round m = ⌊m⌋ + 1 := by
  have hm := fract_half_eq h
  rw [round_eq, show m + 1 / 2 = ((⌊m⌋ + 1 : ℤ) : ℝ) by push_cast; linarith,
    Int.floor_intCast]

lemma rint_of_fract_half_odd {m : ℝ} (h : Int.fract m = 1 / 2)
    (ho : ¬ 2 ∣ ⌊m⌋) : rint m = ⌊m⌋ + 1 := by
  unfold rint
  rw [if_pos h, if_neg ho]

lemma rint_of_fract_half_even {m : ℝ} (h : Int.fract m = 1 / 2)
    (he : 2 ∣ ⌊m⌋) : rint m = ⌊m⌋ := by
  unfold rint
  rw [if_pos h, if_pos he]

/-- C10 (amended): the torch branch (`(x + 0.5).long()`) and the numpy branch
(`np.rint`) agree on every input whose clamped mel value is not an exact
half-integer, and on half-integers with odd integer part; on half-integers
with even integer part the torch branch exceeds the numpy branch by one. -/
theorem f0_to_coarse_branch_agreement (x : ℝ) :
    (Int.fract (f0_mel_clamped x) ≠ 1 / 2 →
      f0_to_coarse_scalar true x = f0_to_coarse_scalar false x) ∧
    (Int.fract (f0_mel_clamped x) = 1 / 2 → ¬ 2 ∣ ⌊f0_mel_clamped x⌋ →
      f0_to_coarse_scalar true x = f0_to_coarse_scalar false x) ∧
    (Int.fract (f0_mel_clamped x) = 1 / 2 → 2 ∣ ⌊f0_mel_clamped x⌋ →
      f0_to_coarse_scalar true x = f0_to_coarse_scalar false x + 1) := by
  have hm : 0 ≤ f0_mel_clamped x := le_trans (by norm_num) (f0_mel_clamped_mem x).1
  unfold f0_to_coarse_scalar
  rw [roundBranch_torch_eq_round hm, roundBranch_np_eq_rint]
  refine ⟨fun h => ?_, fun h ho => ?_, fun h he => ?_⟩
  · rw [rint_of_fract_ne h]
  · rw [rint_of_fract_half_odd h ho, round_of_fract_half h]
  · rw [rint_of_fract_half_even h he, round_of_fract_half h]

/-- Witness for the C10 agreement theorem at the concrete input 0, whose
clamped mel value is 1 (fractional part 0). -/
theorem f0_to_coarse_branch_agreement_witness :
    Int.fract (f0_mel_clamped 0) ≠ 1 / 2 ∧
      f0_to_coarse_scalar true 0 = f0_to_coarse_scalar false 0 := by
  have hfr : Int.fract (f0_mel_clamped 0) ≠ 1 / 2 := by
    rw [f0_mel_clamped_zero, Int.fract_one]
    norm_num
  exact ⟨hfr, (f0_to_coarse_branch_agreement 0).1 hfr⟩

/-- Counterexample for C10 as stated: at the explicit input
`700 * (exp((f0_mel_min + (3/2)·(f0_mel_max − f0_mel_min)/254) / 1127) − 1)`
the clamped mel value is exactly 5/2, so the torch branch truncates
`5/2 + 0.5` to 3 while `np.rint` rounds half-to-even down to 2. -/
theorem f0_to_coarse_branches_differ :
    f0_to_coarse_scalar true
        (700 * (Real.exp ((f0_mel_min + 3 / 2 * (f0_mel_max - f0_mel_min) / 254) / 1127) - 1)) ≠
      f0_to_coarse_scalar false
        (700 * (Real.exp ((f0_mel_min + 3 / 2 * (f0_mel_max - f0_mel_min) / 254) / 1127) - 1)) := by
  set A : ℝ := f0_mel_min + 3 / 2 * (f0_mel_max - f0_mel_min) / 254 with hA
  set x₀ : ℝ := 700 * (Real.exp (A / 1127) - 1) with hx₀
  have hApos : 0 < A := by
    have h1 : 0 < 3 / 2 * (f0_mel_max - f0_mel_min) / 254 := by
      apply div_pos _ (by norm_num)
      nlinarith [melDelta_pos]
    have := f0_mel_min_pos
    rw [hA]
    linarith
  have hmel : f0_mel_of x₀ = A := by
    unfold f0_mel_of
    have harg : 1 + x₀ / 700 = Real.exp (A / 1127) := by
      rw [hx₀]
      field_simp
    rw [harg, Real.log_exp]
    field_simp
  have hclamp : f0_mel_clamped x₀ = 5 / 2 := by
    unfold f0_mel_clamped melStep1
    rw [hmel, if_pos hApos]
    have hres : melRescale A = 5 / 2 := by
      unfold melRescale
      rw [f0_bin_cast_sub_two, hA]
      field_simp [melDelta_ne]
      ring
    rw [hres]
    exact clamp_eval_mid (by norm_num) (by norm_num)
  have hfl : ⌊(5 / 2 : ℝ)⌋ = 2 := by
    rw [Int.floor_eq_iff]
    norm_num
  have hfr : Int.fract (5 / 2 : ℝ) = 1 / 2 := by
    have := Int.self_sub_floor (5 / 2 : ℝ)
    rw [hfl] at this
    push_cast at this
    linarith
  unfold f0_to_coarse_scalar
  rw [hclamp, roundBranch_torch_eq_round (by norm_num),
    roundBranch_np_eq_rint, rint_of_fract_half_even hfr (by rw [hfl]),
    round_of_fract_half hfr, hfl]
  norm_num

/-! ### `load_checkpoint` / `save_checkpoint`

State dicts are association lists from parameter names to values of an
arbitrary type `α`; the optimizer state has an arbitrary type `β`.  The
`torch.save`/`torch.load` trip through the file system is modelled as the
identity on the stored dictionary. -/

/-- The dictionary written by `torch.save` and returned by `torch.load`;
`iteration`, `learning_rate` and `optimizer` may be `None` in a loaded file. -/
structure CheckpointDict (α β : Type) where
  model : List (String × α)
  iteration : Option ℤ
  learning_rate : Option ℚ
  optimizer : Option β

/-- The tuple returned by `load_checkpoint`, together with the list of keys
logged via `"%s is not in the checkpoint"`. -/
structure LoadResult (α β : Type) where
  model : List (String × α)
  optimizer : Option β
  learning_rate : ℚ
  iteration : ℤ
  missing_logged : List String

variable {α β : Type}

/-- Function `load_checkpoint`: `checkpoint_dict` is the loaded file contents,
`state_dict` the current model state, `optimizer` the optional optimizer whose
state is overwritten when both it and the saved optimizer state are present.
Each key of the current state takes the saved value when present and keeps the
current value (logging the key) when missing. -/
def load_checkpoint (checkpoint_dict : CheckpointDict α β)
    (state_dict : List (String × α)) (optimizer : Option β) : LoadResult α β :=
  let iteration := checkpoint_dict.iteration.getD 1
  let learning_rate := checkpoint_dict.learning_rate.getD (2 / 10000)
  let optimizer :=
    if optimizer.isSome && checkpoint_dict.optimizer.isSome then
      checkpoint_dict.optimizer
    else optimizer
  let new_state_dict := state_dict.map fun kv =>
    (kv.1, (checkpoint_dict.model.lookup kv.1).getD kv.2)
  let missing := (state_dict.filter fun kv =>
    (checkpoint_dict.model.lookup kv.1).isNone).map Prod.fst
  ⟨new_state_dict, optimizer, learning_rate, iteration, missing⟩

/-- Function `save_checkpoint`: the dictionary handed to `torch.save`. -/
def save_checkpoint (state_dict : List (String × α)) (optimizer_state : β)
    (learning_rate : ℚ) (iteration : ℤ) : CheckpointDict α β :=
  ⟨state_dict, some iteration, some learning_rate, some optimizer_state⟩

lemma lookup_map_value {γ : Type} (l : List (String × α)) (f : String → α → γ)
    (k : String) :
    (l.map fun kv => (kv.1, f kv.1 kv.2)).lookup k = (l.lookup k).map (f k) := by
  induction l with
  | nil => rfl
  | cons kv t ih =>
      rcases kv with ⟨a, b⟩
      by_cases h : k = a
      · subst h
        simp [List.lookup]
      · have hb : (k == a) = false := beq_eq_false_iff_ne.mpr h
        simp [List.lookup, hb, ih]

lemma mem_missing_aux (model : List (String × α)) (st : List (String × α))
    {k : String} (hk : (st.lookup k).isSome) (hmiss : model.lookup k = none) :
    k ∈ (st.filter fun kv => (model.lookup kv.1).isNone).map Prod.fst := by
  induction st with
  | nil => simp [List.lookup] at hk
  | cons kv t ih =>
      rcases kv with ⟨a, b⟩
      by_cases h : k = a
      · subst h
        have hp : ((model.lookup k).isNone : Bool) = true := by
          rw [hmiss]; rfl
        simp only [List.filter_cons, hp, if_true, List.map_cons]
        exact List.mem_cons_self _ _
      · have hb : (k == a) = false := beq_eq_false_iff_ne.mpr h
        rw [List.lookup, hb] at hk
        have hmem := ih hk
        simp only [List.filter_cons]
        by_cases hp : ((model.lookup a).isNone : Bool) = true
        · rw [if_pos hp, List.map_cons]
          exact List.mem_cons_of_mem _ hmem
        · rw [if_neg hp]
          exact hmem

lemma load_checkpoint_model_lookup (ckpt : CheckpointDict α β)
    (st : List (String × α)) (opt : Option β) (k : String) :
    (load_checkpoint ckpt st opt).model.lookup k
      = (st.lookup k).map fun v => (ckpt.model.lookup k).getD v :=
  lookup_map_value st (fun a v => (ckpt.model.lookup a).getD v) k

lemma load_checkpoint_missing_eq (ckpt : CheckpointDict α β)
    (st : List (String × α)) (opt : Option β) :
    (load_checkpoint ckpt st opt).missing_logged
      = (st.filter fun kv => (ckpt.model.lookup kv.1).isNone).map Prod.fst := rfl

/-- C6: keys of the current model state absent from the saved model state keep
their current in-memory value and are logged; keys present in the saved state
take the saved value; `load_checkpoint` returns a result (no error) either
way. -/
theorem load_checkpoint_missing_keys (ckpt : CheckpointDict α β)
    (st : List (String × α)) (opt : Option β) (k : String)
    (hk : (st.lookup k).isSome) :
    (ckpt.model.lookup k = none →
      (load_checkpoint ckpt st opt).model.lookup k = st.lookup k ∧
      k ∈ (load_checkpoint ckpt st opt).missing_logged) ∧
    (∀ v, ckpt.model.lookup k = some v →
      (load_checkpoint ckpt st opt).model.lookup k = some v) := by
  obtain ⟨w, hw⟩ := Option.isSome_iff_exists.mp hk
  constructor
  · intro hmiss
    constructor
    · rw [load_checkpoint_model_lookup, hw, hmiss]
      rfl
    · rw [load_checkpoint_missing_eq]
      exact mem_missing_aux ckpt.model st hk hmiss
  · intro v hv
    rw [load_checkpoint_model_lookup, hw, hv]
    rfl

/-- Witness for C6: a two-key model state loaded from a checkpoint that only
stores key "a"; key "b" keeps its current value 2 and is logged. -/
theorem load_checkpoint_missing_keys_witness :
    ((([("a", (1 : ℤ)), ("b", 2)] : List (String × ℤ)).lookup "b").isSome ∧
      ([("a", (10 : ℤ))] : List (String × ℤ)).lookup "b" = none) ∧
    ((load_checkpoint (⟨[("a", 10)], some 5, some 1, some 7⟩ : CheckpointDict ℤ ℤ)
        [("a", 1), ("b", 2)] (some 3)).model.lookup "b"
      = ([("a", (1 : ℤ)), ("b", 2)] : List (String × ℤ)).lookup "b" ∧
      "b" ∈ (load_checkpoint (⟨[("a", 10)], some 5, some 1, some 7⟩ : CheckpointDict ℤ ℤ)
        [("a", 1), ("b", 2)] (some 3)).missing_logged) :=
  ⟨⟨by decide, by decide⟩,
    (load_checkpoint_missing_keys (⟨[("a", 10)], some 5, some 1, some 7⟩ : CheckpointDict ℤ ℤ)
      [("a", 1), ("b", 2)] (some 3) "b" (by decide)).1 (by decide)⟩

/-- C7: checkpoint round-trip: loading a freshly saved checkpoint restores the
saved learning rate, iteration and optimizer state exactly, and every key
present both in the saved model state and in the current model state receives
the saved value. -/
theorem save_load_roundtrip (st : List (String × α)) (opt : β) (lr : ℚ)
    (iter : ℤ) (st' : List (String × α)) (opt₀ : β) :
    (load_checkpoint (save_checkpoint st opt lr iter) st' (some opt₀)).learning_rate = lr ∧
    (load_checkpoint (save_checkpoint st opt lr iter) st' (some opt₀)).iteration = iter ∧
    (load_checkpoint (save_checkpoint st opt lr iter) st' (some opt₀)).optimizer = some opt ∧
    ∀ k v, (st'.lookup k).isSome → st.lookup k = some v →
      (load_checkpoint (save_checkpoint st opt lr iter) st' (some opt₀)).model.lookup k = some v := by
  refine ⟨rfl, rfl, rfl, ?_⟩
  intro k v hk hv
  obtain ⟨w, hw⟩ := Option.isSome_iff_exists.mp hk
  rw [load_checkpoint_model_lookup, hw]
  show some ((st.lookup k).getD w) = some v
  rw [hv]
  rfl

/-- Witness for C7 with concrete integer states and the key "w". -/
theorem save_load_roundtrip_witness :
    ((([("w", (0 : ℤ))] : List (String × ℤ)).lookup "w").isSome ∧
      ([("w", (42 : ℤ))] : List (String × ℤ)).lookup "w" = some 42) ∧
    (load_checkpoint (save_checkpoint [("w", (42 : ℤ))] (7 : ℤ) (3 / 100) 9)
      [("w", 0)] (some 1)).model.lookup "w" = some 42 :=
  ⟨⟨by decide, by decide⟩,
    (save_load_roundtrip [("w", (42 : ℤ))] (7 : ℤ) (3 / 100) 9 [("w", 0)]
      (1 : ℤ)).2.2.2 "w" 42 (by decide) (by decide)⟩

/-- C9: the two defaults are applied field by field, for an arbitrary value of
the other field: a stored `None` iteration defaults to 1 and a stored `None`
learning rate defaults to 0.0002 (= 2/10000); a stored non-`None` value of
either field is returned unchanged. -/
theorem load_checkpoint_none_defaults (model : List (String × α))
    (it : Option ℤ) (lr : Option ℚ) (optimizer : Option β)
    (st : List (String × α)) (opt : Option β) :
    (it = none →
      (load_checkpoint ⟨model, it, lr, optimizer⟩ st opt).iteration = 1) ∧
    (lr = none →
      (load_checkpoint ⟨model, it, lr, optimizer⟩ st opt).learning_rate = 2 / 10000) ∧
    (∀ i : ℤ, it = some i →
      (load_checkpoint ⟨model, it, lr, optimizer⟩ st opt).iteration = i) ∧
    (∀ q : ℚ, lr = some q →
      (load_checkpoint ⟨model, it, lr, optimizer⟩ st opt).learning_rate = q) :=
  ⟨fun h => by rw [h]; rfl,
   fun h => by rw [h]; rfl,
   fun i h => by rw [h]; rfl,
   fun q h => by rw [h]; rfl⟩

/-- Witness for C9 at a mixed checkpoint: `None` iteration stored together
with a non-`None` learning rate 3/100; the load returns iteration 1 and
learning rate 3/100. -/
theorem load_checkpoint_none_defaults_witness :
    (load_checkpoint
        (⟨[("a", (1 : ℤ))], none, some (3 / 100), some 2⟩ : CheckpointDict ℤ ℤ)
        [("a", 5)] (some 4)).iteration = 1 ∧
    (load_checkpoint
        (⟨[("a", (1 : ℤ))], none, some (3 / 100), some 2⟩ : CheckpointDict ℤ ℤ)
        [("a", 5)] (some 4)).learning_rate = 3 / 100 :=
  ⟨(load_checkpoint_none_defaults [("a", (1 : ℤ))] none (some (3 / 100))
      (some (2 : ℤ)) [("a", 5)] (some 4)).1 rfl,
   (load_checkpoint_none_defaults [("a", (1 : ℤ))] none (some (3 / 100))
      (some (2 : ℤ)) [("a", 5)] (some 4)).2.2.2 (3 / 100) rfl⟩

/-! ### `latest_checkpoint_path`

The directory listing is an explicit list of file names.  `glob.glob` keeps
the names matching the pattern (prefixed by the directory); `*` and `?` are
the only wildcards occurring in the patterns of this repository. -/

/-- Fuel-bounded glob matcher.  Every recursive call strictly decreases
`pattern.length + name.length`, so fuel `pattern.length + name.length + 1`
never runs out. -/
def globMatchAux : ℕ → List Char → List Char → Bool
  | 0, _, _ => false
  | _ + 1, [], [] => true
  | n + 1, '*' :: ps, [] => globMatchAux n ps []
  | n + 1, '*' :: ps, c :: cs =>
      globMatchAux n ps (c :: cs) || globMatchAux n ('*' :: ps) cs
  | n + 1, '?' :: ps, _ :: cs => globMatchAux n ps cs
  | n + 1, p :: ps, c :: cs => (p == c) && globMatchAux n ps cs
  | _ + 1, _ :: _, [] => false
  | _ + 1, [], _ :: _ => false

def globMatch (pattern name : String) : Bool :=
  globMatchAux (pattern.toList.length + name.toList.length + 1)
    pattern.toList name.toList

/-- Python `os.path.join(dir_path, f)` for a relative name `f`. -/
def joinPath (dir_path name : String) : String := dir_path ++ "/" ++ name

/-- Python `filter(str.isdigit, f)` on the characters of a path. -/
def digitChars (s : String) : List Char := s.toList.filter Char.isDigit

/-- The numeric value of a digit string (most significant digit first). -/
def natOfDigits (ds : List Char) : ℕ :=
  ds.foldl (fun n c => 10 * n + (c.toNat - 48)) 0

/-- Python `int` of the joined digit characters: `none` models the `ValueError`
Python raises when the digit string is empty. -/
def digitKey (s : String) : Option ℕ :=
  if digitChars s = [] then none else some (natOfDigits (digitChars s))

/-- The total sort key backing `digitKey`; the two agree whenever the path
contains at least one digit. -/
def sortKey (s : String) : ℕ := natOfDigits (digitChars s)

/-- The comparison used by the sort: ordering of the digit keys. -/
def keyle (a b : String) : Prop := sortKey a ≤ sortKey b

instance : DecidableRel keyle :=
  fun a b => inferInstanceAs (Decidable (sortKey a ≤ sortKey b))

instance : IsTotal String keyle := ⟨fun a b => Nat.le_total (sortKey a) (sortKey b)⟩

instance : IsTrans String keyle := ⟨fun _ _ _ => Nat.le_trans⟩

/-- Function `latest_checkpoint_path`: glob the directory listing, sort ascending by
the digit key of each full path, take the last element.  The two error
outcomes are the Python `ValueError` (a matched path without digits reaches
`int("")`) and `IndexError` (`f_list[-1]` on an empty match list). -/
def latest_checkpoint_path (dir_path : String) (regex : String := "G_*.pth")
    (files : List String) : Except String String :=
  let f_list := (files.filter fun f => globMatch regex f).map (joinPath dir_path)
  if f_list.any fun f => (digitKey f).isNone then
    Except.error "ValueError"
  else
    match (List.insertionSort keyle f_list).getLast? with
    | some x => Except.ok x
    | none => Except.error "IndexError"

lemma sorted_getLast_ge (l : List String) (p : String)
    (hs : List.Sorted keyle l) (hl : l.getLast? = some p) :
    ∀ q ∈ l, keyle q p := by
  induction l with
  | nil => simp at hl
  | cons a t ih =>
      cases t with
      | nil =>
          simp only [List.getLast?_singleton, Option.some.injEq] at hl
          subst hl
          intro q hq
          rw [List.mem_singleton] at hq
          subst hq
          exact Nat.le_refl _
      | cons b t2 =>
          rw [List.getLast?_cons_cons] at hl
          rw [List.sorted_cons] at hs
          intro q hq
          rcases List.mem_cons.mp hq with rfl | hq2
          · exact hs.1 p (List.mem_of_getLast?_eq_some hl)
          · exact ih hs.2 hl q hq2

/-- C5 (amended): with no matching file the lookup fails with the empty-list
indexing error; with a non-empty match list all of whose joined paths contain
a digit, it returns a matching path whose digit key (the integer formed by
all digit characters of the full joined path) is maximal. -/
theorem latest_checkpoint_path_spec (dir_path regex : String)
    (files : List String) :
    ((files.filter fun f => globMatch regex f) = [] →
      latest_checkpoint_path dir_path regex files = .error "IndexError") ∧
    ((files.filter fun f => globMatch regex f).map (joinPath dir_path) ≠ [] →
      (∀ f ∈ (files.filter fun f => globMatch regex f).map (joinPath dir_path),
        (digitKey f).isSome) →
      ∃ p, latest_checkpoint_path dir_path regex files = .ok p ∧
        p ∈ (files.filter fun f => globMatch regex f).map (joinPath dir_path) ∧
        ∀ q ∈ (files.filter fun f => globMatch regex f).map (joinPath dir_path),
          sortKey q ≤ sortKey p) := by
  constructor
  · intro h
    unfold latest_checkpoint_path
    rw [h]
    rfl
  · intro hne hkeys
    set L := (files.filter fun f => globMatch regex f).map (joinPath dir_path)
      with hL
    have hany : (L.any fun f => (digitKey f).isNone) = false := by
      rw [List.any_eq_false]
      intro f hf
      have h := hkeys f hf
      rcases hdk : digitKey f with _ | v
      · rw [hdk] at h
        exact absurd h (by simp)
      · simp [hdk]
    set S := List.insertionSort keyle L with hS
    have hperm : List.Perm S L := List.perm_insertionSort keyle L
    have hSne : S ≠ [] := by
      intro h0
      have hlen := hperm.length_eq
      rw [h0] at hlen
      exact hne (List.length_eq_zero.mp hlen.symm)
    obtain ⟨p, hp⟩ := Option.isSome_iff_exists.mp (List.getLast?_isSome.mpr hSne)
    refine ⟨p, ?_, ?_, ?_⟩
    · unfold latest_checkpoint_path
      rw [← hL]
      dsimp only
      rw [hany]
      simp only [Bool.false_eq_true, if_false]
      rw [← hS, hp]
    · exact hperm.subset (List.mem_of_getLast?_eq_some hp)
    · intro q hq
      exact sorted_getLast_ge S p (List.sorted_insertionSort keyle L) hp q
        (hperm.mem_iff.mpr hq)

/-- Witness for the amended C5 at the example given in the specification:
`G_100.pth`, `G_2000.pth`, `G_300.pth` in a digit-free directory. -/
theorem latest_checkpoint_path_spec_witness :
    ((["G_100.pth", "G_2000.pth", "G_300.pth"].filter
        fun f => globMatch "G_*.pth" f).map (joinPath "ckpt") ≠ [] ∧
      (∀ f ∈ (["G_100.pth", "G_2000.pth", "G_300.pth"].filter
        fun f => globMatch "G_*.pth" f).map (joinPath "ckpt"),
        (digitKey f).isSome)) ∧
    ∃ p, latest_checkpoint_path "ckpt" "G_*.pth"
        ["G_100.pth", "G_2000.pth", "G_300.pth"] = .ok p ∧
      p ∈ (["G_100.pth", "G_2000.pth", "G_300.pth"].filter
        fun f => globMatch "G_*.pth" f).map (joinPath "ckpt") ∧
      ∀ q ∈ (["G_100.pth", "G_2000.pth", "G_300.pth"].filter
        fun f => globMatch "G_*.pth" f).map (joinPath "ckpt"),
        sortKey q ≤ sortKey p :=
  ⟨⟨by decide, by decide⟩,
    (latest_checkpoint_path_spec "ckpt" "G_*.pth"
      ["G_100.pth", "G_2000.pth", "G_300.pth"]).2 (by decide) (by decide)⟩

/-- C5 counterexample: the sort key is the integer formed by ALL digits of
the joined path, not the numeric suffix alone.  With directory `v1` and files
`G_05.pth` (suffix 5) and `G_9.pth` (suffix 9) the keys are 105 and 19, so
the function returns `v1/G_05.pth` although the largest suffix belongs to
`G_9.pth`. -/
theorem latest_checkpoint_path_cex :
    latest_checkpoint_path "v1" "G_*.pth" ["G_05.pth", "G_9.pth"]
        = .ok "v1/G_05.pth" ∧
      latest_checkpoint_path "v1" "G_*.pth" ["G_05.pth", "G_9.pth"]
        ≠ .ok "v1/G_9.pth" := by
  have h1 : latest_checkpoint_path "v1" "G_*.pth" ["G_05.pth", "G_9.pth"]
      = .ok "v1/G_05.pth" := rfl
  refine ⟨h1, ?_⟩
  rw [h1]
  intro hc
  injection hc with hc
  exact absurd hc (by decide)

end Vits
